import Mathlib

/-!
Verification of the Harmony Viewer (Verovio-based score walkthrough).

This file gives a shallow embedding of the viewer's core logic:

* the DOM-tree step partitioner `extractStepsChordSafe`
  (src/js/viewer.js lines 152-173, identical copies in the overlay viewer
  and in the second part_002 variant),
* the pitch resolvers `pnameToSemitone` / `midiFromPnameOct` /
  `computeStepPitches` (src/unnamed/part_002, both variants),
* the transport state machine of the first part_002 viewer
  (activation messages, MIDI in/out, highlighting, overlay),
* the analysis-overlay baseline cache of the overlay viewer in
  src/js/viewer.js,
* the MIDI port pickers (`pickMidiPort` of part_002 and the
  substring binder of src/js/viewer.js).

JS numbers that only ever hold integers are modelled as `Int` (or `Nat`
for MIDI data bytes); screen coordinates, which are divided by 2 for
centering, are modelled as `ℚ`.
-/

namespace Harmony
/-! ## Generic ascending sort

`Array.prototype.sort` with a consistent comparator returns a sorted
permutation of its input; we model it with a simple insertion sort.
All comparators used by the viewer have distinct keys (document-order
positions) or are applied to plain integers, so the result is the
unique sorted permutation and the choice of algorithm is irrelevant. -/

def insertLe (le : α → α → Bool) (x : α) : List α → List α
  | [] => [x]
  | y :: ys => if le x y then x :: y :: ys else y :: insertLe le x ys

def sortLe (le : α → α → Bool) : List α → List α
  | [] => []
  | x :: xs => insertLe le x (sortLe le xs)

/-! ## DOM model

The rendered score is an SVG element tree.  A node carries its tag name
and its class list; element identity is recovered through the node's
position in the pre-order (document-order) traversal of the tree. -/

inductive Dom where
  | el (tag : String) (classes : List String) (children : List Dom)

def Dom.tagOf : Dom → String
  | .el t _ _ => t

def Dom.classesOf : Dom → List String
  | .el _ c _ => c

def Dom.hasClass (d : Dom) (c : String) : Bool := d.classesOf.contains c

/-- Selector `g.chord`: a `g` element carrying class `chord`. -/
def isChordEl (d : Dom) : Bool := d.tagOf == "g" && d.hasClass "chord"

/-- Selector `g.note`: a `g` element carrying class `note`. -/
def isNoteEl (d : Dom) : Bool := d.tagOf == "g" && d.hasClass "note"

mutual

/-- Pre-order traversal of a subtree: every node paired with its chain of
ancestors (innermost first).  `nodesD anc d` lists `d` itself followed by
all of its descendants, in document order. -/
def nodesD (anc : List Dom) : Dom → List (List Dom × Dom)
  | .el t cl ch => (anc, .el t cl ch) :: nodesL (.el t cl ch :: anc) ch

def nodesL (anc : List Dom) : List Dom → List (List Dom × Dom)
  | [] => []
  | c :: cs => nodesD anc c ++ nodesL anc cs

end

/-- Every node of the tree with its document-order position (0 is the
root `svg` element itself) and its ancestor chain. -/
def enumNodes (root : Dom) : List (Nat × List Dom × Dom) :=
  (nodesD [] root).enum

/-- Model of `note.closest("g.chord")` being non-null: the element itself
or one of its ancestors matches `g.chord`. -/
def closestChord (anc : List Dom) (d : Dom) : Bool :=
  isChordEl d || anc.any isChordEl

/-- Model of `el.querySelectorAll(".notehead use")`: the proper
descendants of the element that are `use` elements and have some
ancestor (anywhere in the document) carrying class `notehead`. -/
def noteheadUsesOf (anc : List Dom) (d : Dom) : List Dom :=
  ((nodesD anc d).drop 1).filterMap fun p =>
    if p.2.tagOf == "use" && p.1.any (fun a => a.hasClass "notehead")
    then some p.2 else none

/-- Comparator key order used by the document-order sort:
`compareDocumentPosition` orders two distinct nodes by document
position, i.e. by pre-order index. -/
def docLe (a b : Nat × List Dom × Dom) : Bool := decide (a.1 ≤ b.1)

/-- Model of `extractStepsChordSafe` (src/js/viewer.js lines 152-173;
byte-identical copies in the overlay viewer and in the second
src/unnamed/part_002 variant): collect `g.chord` groups and the `g.note`
groups not inside any chord, sort the union by document position, map
each group to its notehead `use` elements, and keep only the non-empty
groups. -/
def extractStepsChordSafe (root : Dom) : List (List Dom) :=
  let nodes := enumNodes root
  let chordGroups := nodes.filter fun x => x.1 != 0 && isChordEl x.2.2
  let standaloneNotes := nodes.filter fun x =>
    x.1 != 0 && (isNoteEl x.2.2 && !closestChord x.2.1 x.2.2)
  let allSteps := sortLe docLe (chordGroups ++ standaloneNotes)
  (allSteps.map fun x => noteheadUsesOf x.2.1 x.2.2).filter fun l => !l.isEmpty

/-- Specification-side partition (spec §4.1): one single pass over the
document-order traversal keeping exactly the chord groupings and the
single-note groupings not contained in any chord grouping, mapped to
their notehead elements, empty groupings dropped.  Being a filter of the
pre-order enumeration, its order is document order by construction. -/
def partitionSpec (root : Dom) : List (List Dom) :=
  (((enumNodes root).filter fun x =>
      x.1 != 0 && (isChordEl x.2.2 || (isNoteEl x.2.2 && !closestChord x.2.1 x.2.2))).map
    fun x => noteheadUsesOf x.2.1 x.2.2).filter fun l => !l.isEmpty

/-- The chord-group predicate used by `extractStepsChordSafe`. -/
private def pChord (x : Nat × List Dom × Dom) : Bool := x.1 != 0 && isChordEl x.2.2

/-- The standalone-note predicate used by `extractStepsChordSafe`. -/
private def pNote (x : Nat × List Dom × Dom) : Bool :=
  x.1 != 0 && (isNoteEl x.2.2 && !closestChord x.2.1 x.2.2)

/-! ## Pitch resolution

Model of `pnameToSemitone` / `midiFromPnameOct` / `computeStepPitches`
(src/unnamed/part_002 lines 440-488, first variant) and of
`getMidiFromNoteGroupId` / `computeStepPitches` (same file lines
991-1021, second variant).  The Verovio toolkit's `getElementAttr` is an
external lookup, modelled as a function from a note-group id to an
optional attribute record; `none` models a missing element or a thrown
lookup (caught and ignored by the code). -/

/-- Attribute record returned by `vrvToolkit.getElementAttr`: the pitch
name and the octave.  A missing or non-numeric `oct` (the code applies
`Number(oct)` and rejects non-finite results) is modelled as `none`. -/
structure NoteAttr where
  pname : Option String
  oct : Option Int

/-- Model of `String.prototype.toLowerCase` (the code only feeds it
ASCII pitch names and port names, on which per-character lowercasing
is exact). -/
def jsToLower (s : String) : String := String.mk (s.data.map Char.toLower)

/-- The fixed pitch-class table {c:0, d:2, e:4, f:5, g:7, a:9, b:11};
the code lowercases the pitch name before the lookup and returns `null`
for anything outside the table.  The second variant's `pcMap` is the
same table. -/
def pnameToSemitone (pname : String) : Option Int :=
  match jsToLower pname with
  | "c" => some 0
  | "d" => some 2
  | "e" => some 4
  | "f" => some 5
  | "g" => some 7
  | "a" => some 9
  | "b" => some 11
  | _ => none

/-- Numeric pitch `(oct + 1) * 12 + semitone` (MEI scientific octave,
so C4 = 60); `null` when the pitch name or the octave is unresolvable. -/
def midiFromPnameOct (pname : String) (oct : Option Int) : Option Int :=
  match pnameToSemitone pname with
  | none => none
  | some semi =>
    match oct with
    | none => none
    | some o => some ((o + 1) * 12 + semi)

/-- One note's resolution inside the first variant's
`computeStepPitches` loop: look the id up in the toolkit, extract
`pname`/`oct`, and convert; any failure yields `none` (skipped). -/
def resolveNote (tk : String → Option NoteAttr) (noteId : String) : Option Int :=
  match tk noteId with
  | none => none
  | some attr =>
    match attr.pname with
    | none => none
    | some p => midiFromPnameOct p attr.oct

/-- Model of `Array.from(new Set(pitches))`: deduplication keeping first
occurrences in order. -/
def uniqFirst : List Int → List Int
  | [] => []
  | x :: xs => x :: uniqFirst (xs.filter fun y => y != x)
termination_by l => l.length
decreasing_by
  simp only [List.length_cons]
  exact Nat.lt_succ_of_le (List.length_filter_le _ _)

/-- Comparator of `pitches.sort((a, b) => a - b)`: ascending numeric. -/
def intAsc (a b : Int) : Bool := decide (a ≤ b)

/-- Model of the first variant's `computeStepPitches`
(src/unnamed/part_002 lines 465-488): per step, resolve each note id,
silently skipping unresolvable ones, then deduplicate and sort
ascending. -/
def computeStepPitches (tk : String → Option NoteAttr)
    (harmonicSteps : List (List String)) : List (List Int) :=
  harmonicSteps.map fun ids =>
    sortLe intAsc (uniqFirst (ids.filterMap (resolveNote tk)))

/-- Model of the second variant's `getMidiFromNoteGroupId`
(src/unnamed/part_002 lines 991-1008): requires both `pname` and `oct`
to be present (the code checks `typeof ... === "string"`), uses the same
pitch-class table, and returns `(parseInt(oct) + 1) * 12 + pc`. -/
def getMidiFromNoteGroupId (tk : String → Option NoteAttr)
    (noteId : String) : Option Int :=
  match tk noteId with
  | none => none
  | some attr =>
    match attr.pname, attr.oct with
    | some p, some o =>
      match pnameToSemitone p with
      | none => none
      | some pc => some ((o + 1) * 12 + pc)
    | _, _ => none

/-- Model of the second variant's `computeStepPitches`
(src/unnamed/part_002 lines 1011-1021): per step, push each resolved
pitch in element order — no deduplication and no sort. -/
def computeStepPitchesV2 (tk : String → Option NoteAttr)
    (stepNoteIds : List (List String)) : List (List Int) :=
  stepNoteIds.map fun ids => ids.filterMap (getMidiFromNoteGroupId tk)

/-- Concrete toolkit for the C4 counterexample: a chord whose note
groups are, in element order, E4, C4 and C4 (two voices in unison). -/
def tkUnison (noteId : String) : Option NoteAttr :=
  if noteId = "note-1" then some ⟨some "e", some 4⟩
  else if noteId = "note-2" then some ⟨some "c", some 4⟩
  else if noteId = "note-3" then some ⟨some "c", some 4⟩
  else none

/-! ## Transport state machine

Model of the first src/unnamed/part_002 viewer (lines 15-732): the
activation flag, the current step, highlighting, the analysis overlay,
and MIDI output.  Observable effects are collected in a list of output
events; the DOM geometry needed by the overlay is an explicit parameter
(`Geom`), since it belongs to the browser, not to the viewer state. -/

/-- Screen rectangle as returned by `getBoundingClientRect`. -/
structure Rect where
  left : ℚ
  right : ℚ
  top : ℚ
  bottom : ℚ
deriving DecidableEq

/-- Browser-owned geometry: the rectangle of an element by id (`none`
models an element that is not in the document) and the viewer
container's rectangle. -/
structure Geom where
  rectOf : String → Option Rect
  viewerRect : Rect

/-- One analysis annotation entry `{ stufe, function }`. -/
structure AEntry where
  stufe : String
  func : String
deriving DecidableEq

/-- Observable outputs: MIDI note-on, MIDI control change (channel,
controller number, value), and the `viewer-height` post to the parent
frame. -/
inductive OutEv where
  | noteOn (ch pitch vel : Int)
  | ccOut (ch num val : Int)
  | heightReport
deriving DecidableEq

/-- Viewer session state of the first part_002 variant. -/
structure VState where
  harmonicSteps : List (List String)
  stepPitches : List (List Int)
  highlightedStep : Int
  isActiveViewer : Bool
  currentSlideIndex : Int
  embedded : Bool
  midiOut : Bool
  analysis : Option (List AEntry)
  baselineY : Option ℚ
  highlighted : List String
  overlay : Option (ℚ × ℚ × String × String)
deriving DecidableEq

/-- Model of `clampInt(n, lo, hi)` (part_002 lines 97-101).  On integer
inputs `Number` and `Math.trunc` are the identity, leaving
`Math.max(lo, Math.min(hi, n))`. -/
def clampInt (n lo hi : Int) : Int := max lo (min hi n)

/-- The ids of step `stepIndex` (1-based): `harmonicSteps[stepIndex-1] || []`. -/
def stepIds (s : VState) (stepIndex : Int) : List String :=
  (s.harmonicSteps[(stepIndex - 1).toNat]?).getD []

/-- Model of `applySvgHighlight` (part_002 lines 405-417): clear every
mark, then, for a positive index, mark the step's note groups present
in the document. -/
def applySvgHighlight (g : Geom) (s : VState) (stepIndex : Int) : List String :=
  if stepIndex ≤ 0 then []
  else (stepIds s stepIndex).filter fun noteId => (g.rectOf noteId).isSome

/-- Model of `updateAnalysisOverlay` (part_002 lines 324-378): hidden
unless analysis data, an entry for the step, at least one on-screen
element rectangle, and a non-null, non-zero global baseline all exist;
otherwise shows the entry's labels at (center of the step's rects,
baseline), both converted to viewer coordinates. -/
def updateAnalysisOverlay (g : Geom) (s : VState) (stepIndex : Int) :
    Option (ℚ × ℚ × String × String) :=
  match s.analysis with
  | none => none
  | some entries =>
    if stepIndex ≤ 0 then none
    else
      match entries[(stepIndex - 1).toNat]? with
      | none => none
      | some entry =>
        let rects := (stepIds s stepIndex).filterMap g.rectOf
        match rects with
        | [] => none
        | _ :: _ =>
          let cx := (rects.map fun r => (r.left + r.right) / 2).sum / (rects.length : ℚ)
          -- `if (!globalAnalysisBaselineY)`: falsy means null or 0
          match s.baselineY with
          | none => none
          | some b =>
            if b = 0 then none
            else some (cx - g.viewerRect.left, b - g.viewerRect.top + 6,
              entry.stufe, entry.func)

/-- Model of `sendCC` (part_002 lines 493-498): no-op without an output
port; otherwise CC on channel 0 with the controller number masked to 7
bits and the value clamped to [0,127]. -/
def sendCC (s : VState) (cc : Nat) (value : Int) : List OutEv :=
  if s.midiOut then [.ccOut 0 (Int.ofNat (cc % 128)) (clampInt value 0 127)] else []

/-- Model of `sendStepCountCc` (part_002 lines 500-507): only the active
viewer reports its step count, on CC 23. -/
def sendStepCountCc (s : VState) : List OutEv :=
  if !s.isActiveViewer then [] else sendCC s 23 (s.harmonicSteps.length : Int)

/-- Model of `sendSlideIndexCc` (part_002 lines 510-515): only the
active viewer reports the slide index, on CC 24. -/
def sendSlideIndexCc (s : VState) (index : Int) : List OutEv :=
  if !s.isActiveViewer then [] else sendCC s 24 index

/-- Model of `sendAllNotesOff` (part_002 lines 517-521): CC 123 value 0
on channel 0, a no-op without an output port. -/
def sendAllNotesOff (s : VState) : List OutEv :=
  if !s.midiOut then [] else sendCC s 123 0

/-- Model of `sendStepNotesAsMidi` (part_002 lines 523-541): a burst of
note-ons (velocity 100, channel 0, pitches clamped to [0,127]) for the
step's pitch list, followed by the all-notes-off cleanup that the code
schedules 80 ms later (modelled here as the tail of the same event
list). -/
def sendStepNotesAsMidi (s : VState) (stepIndex : Int) : List OutEv :=
  if !s.midiOut then []
  else
    let pitches := (s.stepPitches[(stepIndex - 1).toNat]?).getD []
    (pitches.map fun p => OutEv.noteOn 0 (clampInt p 0 127) 100) ++ sendAllNotesOff s

/-- Model of `notifyParentOfHeight` (part_002 lines 154-160): embedded
viewers post their measured height to the parent frame. -/
def notifyParentOfHeight (s : VState) : List OutEv :=
  if s.embedded then [.heightReport] else []

/-- State updates of `highlightStep` (part_002 lines 419-434): clamp the
index into [0, stepCount], store it, refresh the highlight marks and the
overlay. -/
def highlightStepState (g : Geom) (s : VState) (stepIndex : Int) : VState :=
  let h := clampInt stepIndex 0 (s.harmonicSteps.length : Int)
  { s with
    highlightedStep := h
    highlighted := applySvgHighlight g s h
    overlay := updateAnalysisOverlay g s h }

/-- Emissions of `highlightStep`: only the ACTIVE viewer sends notes;
otherwise (or for step 0) an all-notes-off; always followed by a height
report to the parent. -/
def highlightStepEvents (s : VState) (stepIndex : Int) : List OutEv :=
  let h := clampInt stepIndex 0 (s.harmonicSteps.length : Int)
  (if s.isActiveViewer && decide (0 < h) then sendStepNotesAsMidi s h
   else sendAllNotesOff s) ++ notifyParentOfHeight s

/-- Model of `highlightStep` (part_002 lines 419-434). -/
def highlightStep (g : Geom) (s : VState) (stepIndex : Int) : VState × List OutEv :=
  (highlightStepState g s stepIndex, highlightStepEvents s stepIndex)

/-- Model of `handleMidiMessage` (part_002 lines 543-565): an inactive
embedded viewer returns immediately; otherwise only a Control Change on
the step-select controller 22 triggers `highlightStep` with the 7-bit
value clamped into [0, stepCount]. -/
def handleMidiMessage (g : Geom) (s : VState) (data : List Nat) :
    VState × List OutEv :=
  if !s.isActiveViewer && s.embedded then (s, [])
  else if ((data[0]?).getD 0) &&& 0xf0 == 0xb0 then
    if ((data[1]?).getD 0) &&& 0x7f == 22 then
      highlightStep g s
        (clampInt (Int.ofNat (((data[2]?).getD 0) &&& 0x7f)) 0
          (s.harmonicSteps.length : Int))
    else (s, [])
  else (s, [])

/-- Cross-frame messages the part_002 viewer reacts to; `malformed`
stands for a non-object or unknown-type payload, ignored by the shape
checks. -/
inductive HostMsg where
  | activate (slideIndex : Option Int)
  | deactivate
  | requestStepCount
  | malformed

/-- Model of the part_002 `message` listener (lines 618-652):
`harmony-activate` sets the active flag, stores the clamped slide index,
emits step count and slide index, re-applies the current highlight and
reports the height; `harmony-deactivate` clears the active flag and
sends an all-notes-off (unconditionally); `harmony-request-step-count`
resends the step count (only if active, via `sendStepCountCc`). -/
def handleHostMessage (g : Geom) (s : VState) : HostMsg → VState × List OutEv
  | .activate si =>
    let s1 := { s with
      isActiveViewer := true
      currentSlideIndex := clampInt (si.getD 0) 0 127 }
    (highlightStepState g s1 s1.highlightedStep,
      sendStepCountCc s1 ++ sendSlideIndexCc s1 s1.currentSlideIndex
        ++ highlightStepEvents s1 s1.highlightedStep ++ notifyParentOfHeight s1)
  | .deactivate =>
    let s1 := { s with isActiveViewer := false }
    (s1, sendAllNotesOff s1)
  | .requestStepCount => (s, sendStepCountCc s)
  | .malformed => (s, [])

/-- Model of `activateCurrentIframe` of the Reveal plugin
(src/unnamed/part_000 lines 65-91): every harmony iframe contained in
the current slide is sent `harmony-activate` with the slide index,
every other harmony iframe is sent `harmony-deactivate`; each viewer
then processes its message. -/
def deckRound (g : Geom) (slideIndex : Int) (containedInCurrent : List Bool)
    (viewers : List VState) : List VState :=
  (containedInCurrent.zip viewers).map fun cv =>
    (handleHostMessage g cv.2
      (if cv.1 then HostMsg.activate (some slideIndex) else HostMsg.deactivate)).1

/-! ## The chord-safe viewer of src/js/viewer.js

That viewer has no activation state; its `highlightStep` (lines
189-206) resets `currentStep` to 0 for every out-of-range index instead
of clamping, and its `handleMIDIIn` (lines 254-262) reacts only to the
configured step-select controller. -/

/-- Model of `highlightStep` of src/js/viewer.js (lines 189-206),
restricted to the `currentStep` it stores: 0 whenever the index is
out of range (`index <= 0 || index > steps.length`), the index itself
otherwise. -/
def highlightStepJs (steps : List (List Dom)) (index : Int) : Int :=
  if index ≤ 0 ∨ (steps.length : Int) < index then 0 else index

/-- Model of `handleMIDIIn` (src/js/viewer.js lines 254-262 and
687-695): destructure `[status, cc, value]`; act only on a Control
Change whose controller equals the configured `CC_SELECT`; a missing
status or controller byte (`undefined` in JS) never matches.  Returns
the resulting `currentStep`. -/
def handleMIDIInJs (ccSelect : Int) (steps : List (List Dom))
    (currentStep : Int) (data : List Nat) : Int :=
  match (data[0]? : Option Nat) with
  | none => currentStep
  | some status =>
    if status &&& 0xf0 != 0xb0 then currentStep
    else
      match (data[1]? : Option Nat) with
      | none => currentStep
      | some cc =>
        if (cc : Int) == ccSelect then
          let v : Nat := (data[2]?).getD 0
          highlightStepJs steps (v : Int)
        else currentStep

/-! ## MIDI port resolution -/

/-- Character-level model of `normalizePortName` (src/unnamed/part_002
lines 116-123): lowercase, rewrite the unicode arrows to `->`, rewrite
en/em dashes to `-`, strip whitespace, and drop every character outside
`[a-z0-9<>\-_.]`. -/
def normalizeChars (cs : List Char) : List Char :=
  ((((cs.map Char.toLower).flatMap fun c =>
        if c = '→' ∨ c = '➔' ∨ c = '⇒' then ['-', '>'] else [c]).map fun c =>
      if c = '–' ∨ c = '—' then '-' else c).filter fun c => !c.isWhitespace).filter
    fun c => decide (('a' ≤ c ∧ c ≤ 'z') ∨ ('0' ≤ c ∧ c ≤ '9') ∨
      c ∈ ['<', '>', '-', '_', '.'])

def normalizePortName (s : String) : String := String.mk (normalizeChars s.data)

/-- Model of `String.prototype.startsWith` on character lists. -/
def startsWithSeq : List Char → List Char → Bool
  | [], _ => true
  | _ :: _, [] => false
  | a :: as, b :: bs => a == b && startsWithSeq as bs

/-- Model of `String.prototype.includes`: the needle occurs as a
contiguous subsequence of the haystack. -/
def containsSeq (needle hay : List Char) : Bool :=
  hay.tails.any fun t => startsWithSeq needle t

/-- Model of `pickMidiPort(mapLike, hint)` (src/unnamed/part_002 lines
125-149); ports are identified by their names.  Three steps: normalized
substring match, then the browser/max keyword heuristic, then the FIRST
AVAILABLE PORT as fallback — `null` only when no ports exist at all. -/
def pickMidiPort (ports : List String) (hint : String) : Option String :=
  match ports with
  | [] => none
  | _ :: _ =>
    let hintNorm := normalizePortName hint
    match ports.find? fun x =>
        containsSeq hintNorm.data (normalizePortName x).data with
    | some p => some p
    | none =>
      let wantsBrowser := containsSeq "browser".data hintNorm.data
      let wantsMax := containsSeq "max".data hintNorm.data
      match (if wantsBrowser || wantsMax then
          ports.find? fun x =>
            (!wantsBrowser || containsSeq "browser".data (normalizePortName x).data) &&
            (!wantsMax || containsSeq "max".data (normalizePortName x).data)
        else none) with
      | some p => some p
      | none => ports.head?

/-- Model of the src/js/viewer.js port-binding loops (lines 226-251 and
663-684): every port whose raw name contains the configured hint is
bound in turn, so the last match wins; no match leaves the binding
`null`. -/
def bindPortJs (names : List String) (hint : String) : Option String :=
  (names.filter fun n => containsSeq hint.data n.data).getLast?

/-- Model of `sendStepCount` (src/js/viewer.js lines 272-279): a silent
no-op when no output port is bound, otherwise CC `ccCount` carrying
`Math.min(127, steps.length)`. -/
def sendStepCountJs (midiOut : Option String) (ccCount : Nat)
    (stepCount : Nat) : List OutEv :=
  match midiOut with
  | none => []
  | some _ => [OutEv.ccOut 0 (Int.ofNat ccCount) (Int.ofNat (min 127 stepCount))]

/-! ## Analysis overlay baseline (overlay viewer of src/js/viewer.js)

Model of the `globalBaselineY` cache (lines 398-399, 486-492, 563-632):
the vertical overlay position is computed once, on the first overlay
display, from the lowest pixel of the displayed step, reused for every
later display, invalidated on resize and recomputed on the next
display. -/

/-- Browser-side inputs of the overlay logic: the screen rectangles of
each step's notehead `use` elements under the current layout, the
viewer container rectangle, and the analysis entries. -/
structure OEnv where
  stepRects : List (List Rect)
  viewerRect : Rect
  analysisSteps : Option (List AEntry)
deriving DecidableEq

/-- Mutable overlay state: current step, the cached baseline, the last
applied overlay position (style left/top), and the hidden flag. -/
structure OState where
  currentStep : Int
  globalBaselineY : Option ℚ
  overlayPos : Option (ℚ × ℚ)
  overlayHidden : Bool
deriving DecidableEq

/-- Screen bounding box of a step. -/
structure BBoxS where
  minX : ℚ
  maxX : ℚ
  maxY : ℚ
deriving DecidableEq

/-- Model of `getStepScreenBBox` (src/js/viewer.js lines 597-613):
`null` for a missing or empty step, otherwise min/max over the step's
element rectangles. -/
def getStepScreenBBox (env : OEnv) (index : Int) : Option BBoxS :=
  if index ≤ 0 then none
  else
    match env.stepRects[(index - 1).toNat]? with
    | none => none
    | some [] => none
    | some (r :: rs) =>
      some (rs.foldl
        (fun b r2 =>
          { minX := min b.minX r2.left
            maxX := max b.maxX r2.right
            maxY := max b.maxY r2.bottom })
        { minX := r.left, maxX := r.right, maxY := r.bottom })

/-- Lookup `analysisData?.steps?.[index - 1]`. -/
def analysisEntry (env : OEnv) (index : Int) : Option AEntry :=
  match env.analysisSteps with
  | none => none
  | some entries => if index ≤ 0 then none else entries[(index - 1).toNat]?

/-- Model of `positionOverlayAtStep` (src/js/viewer.js lines 615-632):
horizontal position recomputed from the step's extent every time,
vertical position from the cached baseline when present (the per-step
fallback applies only while the baseline is still unknown). -/
def positionOverlayAtStep (env : OEnv) (st : OState) (index : Int) : OState :=
  match getStepScreenBBox env index with
  | none => st
  | some bbox =>
    let centerX := (bbox.minX + bbox.maxX) / 2
    let xInViewer := centerX - env.viewerRect.left
    let yInViewer :=
      match st.globalBaselineY with
      | some b => b
      | none => bbox.maxY - env.viewerRect.top + 10
    { st with overlayPos := some (xInViewer, yInViewer) }

/-- Model of `updateOverlayForStep` (src/js/viewer.js lines 563-588):
hide when the step has no analysis entry; otherwise show, compute the
global baseline once (first display with a usable bounding box), and
position the overlay. -/
def updateOverlayForStep (env : OEnv) (st : OState) (index : Int) : OState :=
  match analysisEntry env index with
  | none => { st with overlayHidden := true }
  | some _ =>
    let st1 := { st with overlayHidden := false }
    let st2 :=
      if st1.globalBaselineY = none then
        match getStepScreenBBox env index with
        | some bbox =>
          { st1 with globalBaselineY := some (bbox.maxY - env.viewerRect.top + 10) }
        | none => st1
      else st1
    positionOverlayAtStep env st2 index

/-- Model of `repositionOverlayForCurrentStep` (lines 590-594). -/
def repositionOverlayForCurrentStep (env : OEnv) (st : OState) : OState :=
  if 0 < st.currentStep then updateOverlayForStep env st st.currentStep else st

/-- Model of the `resize` listener (src/js/viewer.js lines 486-492):
invalidate the baseline, refit (the new layout arrives as a fresh
`OEnv`), and reposition the overlay for the current step. -/
def onResize (envNew : OEnv) (st : OState) : OState :=
  repositionOverlayForCurrentStep envNew { st with globalBaselineY := none }

/-! ## Concrete fixtures for counterexamples and witnesses -/

/-- A freshly loaded embedded viewer with no score content. -/
def defaultViewer : VState where
  harmonicSteps := []
  stepPitches := []
  highlightedStep := 0
  isActiveViewer := false
  currentSlideIndex := 0
  embedded := true
  midiOut := false
  analysis := none
  baselineY := none
  highlighted := []
  overlay := none

/-- Trivial geometry: no element is in the document. -/
def geom0 : Geom where
  rectOf := fun _ => none
  viewerRect := ⟨0, 0, 0, 0⟩

/-- An active embedded viewer with a bound MIDI output. -/
def activeViewer : VState :=
  { defaultViewer with isActiveViewer := true, midiOut := true }

/-- An inactive embedded viewer with one step and a bound output. -/
def inactiveOut : VState :=
  { defaultViewer with
      harmonicSteps := [["n1"]], stepPitches := [[60]], midiOut := true }

/-- An inactive embedded viewer with two steps. -/
def embeddedInactive : VState :=
  { defaultViewer with harmonicSteps := [["n1"], ["n2"]] }

/-- Overlay environment with two steps of different heights and two
analysis entries. -/
def oenv1 : OEnv where
  stepRects := [[⟨10, 20, 0, 50⟩], [⟨100, 120, 0, 30⟩]]
  viewerRect := ⟨5, 500, 5, 400⟩
  analysisSteps := some [⟨"I", "T"⟩, ⟨"V", "D"⟩]

/-- Fresh overlay state: nothing shown, baseline unknown. -/
def ostate0 : OState where
  currentStep := 0
  globalBaselineY := none
  overlayPos := none
  overlayHidden := true

/-! ## Proof development -/

theorem insertLe_perm (le : α → α → Bool) (x : α) (l : List α) :
    List.Perm (insertLe le x l) (x :: l) := by
  induction l with
  | nil => simp [insertLe]
  | cons y ys ih =>
    by_cases h : le x y = true
    · rw [insertLe, if_pos h]
    · rw [insertLe, if_neg h]
      exact ((ih.cons y).trans (List.Perm.swap x y ys))

theorem sortLe_perm (le : α → α → Bool) (l : List α) :
    List.Perm (sortLe le l) l := by
  induction l with
  | nil => simp [sortLe]
  | cons x xs ih =>
    exact (insertLe_perm le x (sortLe le xs)).trans (ih.cons x)

theorem insertLe_pairwise (le : α → α → Bool)
    (total : ∀ a b, le a b = false → le b a = true)
    (htrans : ∀ a b c, le a b = true → le b c = true → le a c = true)
    (x : α) (l : List α)
    (hl : List.Pairwise (fun a b => le a b = true) l) :
    List.Pairwise (fun a b => le a b = true) (insertLe le x l) := by
  induction l with
  | nil => simp [insertLe]
  | cons y ys ih =>
    rcases hl with _ | ⟨hy, hys⟩
    by_cases h : le x y = true
    · simp only [insertLe, if_pos h]
      refine List.Pairwise.cons ?_ (List.Pairwise.cons hy hys)
      intro b hb
      rcases List.mem_cons.mp hb with rfl | hb
      · exact h
      · exact htrans _ _ _ h (hy b hb)
    · simp only [insertLe, if_neg h]
      refine List.Pairwise.cons ?_ (ih hys)
      intro b hb
      have hb' := (insertLe_perm le x ys).mem_iff.mp hb
      rcases List.mem_cons.mp hb' with rfl | hb'
      · exact total _ _ (Bool.eq_false_iff.mpr h)
      · exact hy b hb'

theorem sortLe_pairwise (le : α → α → Bool)
    (total : ∀ a b, le a b = false → le b a = true)
    (htrans : ∀ a b c, le a b = true → le b c = true → le a c = true)
    (l : List α) :
    List.Pairwise (fun a b => le a b = true) (sortLe le l) := by
  induction l with
  | nil => simp [sortLe]
  | cons x xs ih => exact insertLe_pairwise le total htrans x _ ih

section PartitionProof

variable {root : Dom}

private theorem filter_append_perm_or (p q : α → Bool)
    (hdisj : ∀ x, ¬(p x = true ∧ q x = true)) (l : List α) :
    List.Perm (l.filter p ++ l.filter q) (l.filter fun x => p x || q x) := by
  induction l with
  | nil => simp
  | cons x xs ih =>
    by_cases hp : p x = true
    · have hq : q x = false := by
        cases hqx : q x with
        | false => rfl
        | true => exact absurd ⟨hp, hqx⟩ (hdisj x)
      simp only [List.filter_cons, hp, hq, Bool.or_true, Bool.true_or,
        if_pos, Bool.false_eq_true, if_neg, ite_true, ite_false]
      simpa using ih.cons x
    · have hp' : p x = false := Bool.eq_false_iff.mpr hp
      by_cases hq : q x = true
      · simp only [List.filter_cons, hp', hq, Bool.false_or, ite_true,
          Bool.false_eq_true, ite_false]
        refine List.Perm.trans ?_ (ih.cons x)
        exact List.perm_middle
      · have hq' : q x = false := Bool.eq_false_iff.mpr hq
        simp only [List.filter_cons, hp', hq', Bool.or_self,
          Bool.false_eq_true, ite_false]
        exact ih

private theorem enumNodes_pairwise_lt :
    List.Pairwise (fun a b : Nat × List Dom × Dom => a.1 < b.1) (enumNodes root) := by
  have h := List.enum_map_fst (nodesD [] root)
  have := List.pairwise_lt_range (nodesD [] root).length
  rw [← h, List.pairwise_map] at this
  exact this

private theorem enumNodes_fst_nodup :
    ((enumNodes root).map Prod.fst).Nodup := by
  show ((nodesD [] root).enum.map Prod.fst).Nodup
  rw [List.enum_map_fst]
  exact List.nodup_range _

private theorem pChord_pNote_disjoint (x : Nat × List Dom × Dom) :
    ¬(pChord x = true ∧ pNote x = true) := by
  rintro ⟨h1, h2⟩
  simp only [pChord, pNote, Bool.and_eq_true, Bool.not_eq_true'] at h1 h2
  have hc : isChordEl x.2.2 = true := h1.2
  have : closestChord x.2.1 x.2.2 = true := by
    simp [closestChord, hc]
  rw [this] at h2
  exact absurd h2.2.2 (by simp)

private theorem sorted_combined_eq_filter :
    sortLe docLe
        ((enumNodes root).filter (fun x => x.1 != 0 && isChordEl x.2.2) ++
          (enumNodes root).filter
            (fun x => x.1 != 0 && (isNoteEl x.2.2 && !closestChord x.2.1 x.2.2)))
      = (enumNodes root).filter
          (fun x => x.1 != 0 && isChordEl x.2.2 ||
            x.1 != 0 && (isNoteEl x.2.2 && !closestChord x.2.1 x.2.2)) := by
  show sortLe docLe ((enumNodes root).filter pChord ++ (enumNodes root).filter pNote)
      = (enumNodes root).filter fun x => pChord x || pNote x
  set L := enumNodes root with hL
  have htotal : ∀ a b : Nat × List Dom × Dom, docLe a b = false → docLe b a = true := by
    intro a b h
    simp only [docLe, decide_eq_false_iff_not, Nat.not_le] at h
    simp [docLe, Nat.le_of_lt h]
  have htrans : ∀ a b c : Nat × List Dom × Dom,
      docLe a b = true → docLe b c = true → docLe a c = true := by
    intro a b c h1 h2
    simp only [docLe, decide_eq_true_eq] at h1 h2 ⊢
    exact Nat.le_trans h1 h2
  -- permutation chain: sorted ~ combined ~ single filter
  have hperm1 : List.Perm (sortLe docLe (L.filter pChord ++ L.filter pNote))
      (L.filter pChord ++ L.filter pNote) := sortLe_perm _ _
  have hperm2 : List.Perm (L.filter pChord ++ L.filter pNote)
      (L.filter fun x => pChord x || pNote x) :=
    filter_append_perm_or pChord pNote pChord_pNote_disjoint L
  have hperm : List.Perm (sortLe docLe (L.filter pChord ++ L.filter pNote))
      (L.filter fun x => pChord x || pNote x) := hperm1.trans hperm2
  -- both sides are strictly sorted by document position
  have hpwL : List.Pairwise (fun a b : Nat × List Dom × Dom => a.1 < b.1) L :=
    enumNodes_pairwise_lt
  have hsortedR : List.Pairwise (fun a b : Nat × List Dom × Dom => a.1 < b.1)
      (L.filter fun x => pChord x || pNote x) := hpwL.filter _
  have hle : List.Pairwise (fun a b : Nat × List Dom × Dom => docLe a b = true)
      (sortLe docLe (L.filter pChord ++ L.filter pNote)) :=
    sortLe_pairwise docLe htotal htrans _
  have hnodupR : ((L.filter fun x => pChord x || pNote x).map Prod.fst).Nodup :=
    ((List.filter_sublist L).map Prod.fst).nodup enumNodes_fst_nodup
  have hnodupL : ((sortLe docLe (L.filter pChord ++ L.filter pNote)).map Prod.fst).Nodup :=
    (hperm.map Prod.fst).symm.nodup hnodupR
  have hne : List.Pairwise (fun a b : Nat × List Dom × Dom => a.1 ≠ b.1)
      (sortLe docLe (L.filter pChord ++ L.filter pNote)) := by
    have h' : ((sortLe docLe (L.filter pChord ++ L.filter pNote)).map
        Prod.fst).Pairwise (fun a b => a ≠ b) := hnodupL
    exact List.pairwise_map.mp h'
  have hsortedL : List.Pairwise (fun a b : Nat × List Dom × Dom => a.1 < b.1)
      (sortLe docLe (L.filter pChord ++ L.filter pNote)) := by
    refine (hle.and hne).imp ?_
    rintro a b ⟨h1, h2⟩
    simp only [docLe, decide_eq_true_eq] at h1
    exact Nat.lt_of_le_of_ne h1 h2
  haveI : IsAntisymm (Nat × List Dom × Dom) (fun a b => a.1 < b.1) :=
    ⟨fun a b h1 h2 => absurd h1 (Nat.lt_asymm h2)⟩
  exact List.eq_of_perm_of_sorted hperm hsortedL hsortedR

/-- C3.  Step partition: `extractStepsChordSafe` returns exactly the
chord groupings plus the single-note groupings not contained in any
chord grouping, merged into one sequence ordered by document order
(pre-order tree-traversal position), with every grouping that has zero
notehead elements dropped — so no returned Step is empty. -/
theorem extractSteps_eq_partitionSpec (root : Dom) :
    extractStepsChordSafe root = partitionSpec root ∧
    ∀ s ∈ extractStepsChordSafe root, s ≠ [] := by
  constructor
  · have h := @sorted_combined_eq_filter root
    simp only [extractStepsChordSafe, partitionSpec]
    rw [h]
    have hpred : List.filter (fun x : Nat × List Dom × Dom =>
          x.1 != 0 && isChordEl x.2.2 ||
            x.1 != 0 && (isNoteEl x.2.2 && !closestChord x.2.1 x.2.2)) (enumNodes root)
        = List.filter (fun x : Nat × List Dom × Dom =>
          x.1 != 0 && (isChordEl x.2.2 || isNoteEl x.2.2 && !closestChord x.2.1 x.2.2))
            (enumNodes root) := by
      apply List.filter_congr
      intro x _
      cases h0 : (x.1 != 0) <;> simp [Bool.and_or_distrib_left]
    rw [hpred]
  · intro s hs
    simp only [extractStepsChordSafe] at hs
    have := List.of_mem_filter hs
    simpa [List.isEmpty_iff] using this

end PartitionProof

theorem mem_uniqFirst : ∀ (l : List Int) (a : Int), a ∈ uniqFirst l ↔ a ∈ l
  | [], a => by simp [uniqFirst]
  | x :: xs, a => by
    rw [uniqFirst]
    constructor
    · intro h
      rcases List.mem_cons.mp h with rfl | h
      · exact List.mem_cons_self _ _
      · have h' := (mem_uniqFirst (xs.filter fun y => y != x) a).mp h
        exact List.mem_cons_of_mem _ (List.mem_of_mem_filter h')
    · intro h
      rcases List.mem_cons.mp h with rfl | h
      · exact List.mem_cons_self _ _
      · by_cases hax : a = x
        · exact hax ▸ List.mem_cons_self _ _
        · refine List.mem_cons_of_mem _ ?_
          refine (mem_uniqFirst (xs.filter fun y => y != x) a).mpr ?_
          exact List.mem_filter.mpr ⟨h, by simpa using hax⟩
termination_by l _ => l.length
decreasing_by
  all_goals
    simp only [List.length_cons]
    exact Nat.lt_succ_of_le (List.length_filter_le _ _)

theorem uniqFirst_nodup : ∀ (l : List Int), (uniqFirst l).Nodup
  | [] => by simp [uniqFirst]
  | x :: xs => by
    rw [uniqFirst]
    refine List.nodup_cons.mpr ⟨?_, uniqFirst_nodup _⟩
    intro hmem
    have h := (mem_uniqFirst _ x).mp hmem
    have := (List.mem_filter.mp h).2
    simp at this
termination_by l => l.length
decreasing_by
  simp only [List.length_cons]
  exact Nat.lt_succ_of_le (List.length_filter_le _ _)

private theorem stepPitchList_sorted (l : List Int) :
    List.Sorted (· ≤ ·) (sortLe intAsc l) := by
  have h := sortLe_pairwise intAsc
    (fun a b hf => by
      simp only [intAsc, decide_eq_false_iff_not, Int.not_le] at hf
      simp [intAsc, Int.le_of_lt hf])
    (fun a b c h1 h2 => by
      simp only [intAsc, decide_eq_true_eq] at h1 h2 ⊢
      exact Int.le_trans h1 h2) l
  exact h.imp fun hab => by simpa [intAsc] using hab

private theorem mem_sortLe_intAsc (l : List Int) (m : Int) :
    m ∈ sortLe intAsc l ↔ m ∈ l :=
  (sortLe_perm intAsc l).mem_iff

/-- C4 (amended).  Pitch resolution: the pitch-class table maps C4 to 60
and B3 to 59; the first variant's `computeStepPitches` yields, for every
step, a deduplicated ascending-sorted list whose members are exactly the
pitches of the resolvable note ids (unresolvable ids are skipped
silently, and a step with no resolvable id yields the empty list); the
second variant's `computeStepPitches` instead keeps the resolved pitches
in element order, without deduplication or sorting. -/
theorem computeStepPitches_spec :
    (midiFromPnameOct "C" (some 4) = some 60 ∧
      midiFromPnameOct "B" (some 3) = some 59) ∧
    (∀ (tk : String → Option NoteAttr) (steps : List (List String)) (i : Nat),
      List.Sorted (· ≤ ·) ((computeStepPitches tk steps)[i]?.getD []) ∧
      ((computeStepPitches tk steps)[i]?.getD []).Nodup) ∧
    (∀ (tk : String → Option NoteAttr) (steps : List (List String)) (i : Nat) (m : Int),
      m ∈ (computeStepPitches tk steps)[i]?.getD [] ↔
        ∃ noteId ∈ steps[i]?.getD [], resolveNote tk noteId = some m) ∧
    (∀ (tk : String → Option NoteAttr) (stepNoteIds : List (List String)),
      computeStepPitchesV2 tk stepNoteIds
        = stepNoteIds.map fun ids => ids.filterMap (getMidiFromNoteGroupId tk)) := by
  refine ⟨⟨by decide, by decide⟩, ?_, ?_, fun tk s => rfl⟩
  · intro tk steps i
    rw [computeStepPitches, List.getElem?_map]
    cases h : steps[i]? with
    | none => simp
    | some ids =>
      constructor
      · exact stepPitchList_sorted _
      · exact ((sortLe_perm intAsc _).nodup_iff).mpr (uniqFirst_nodup _)
  · intro tk steps i m
    rw [computeStepPitches, List.getElem?_map]
    cases h : steps[i]? with
    | none => simp
    | some ids =>
      show m ∈ sortLe intAsc (uniqFirst (ids.filterMap (resolveNote tk))) ↔ _
      rw [mem_sortLe_intAsc, mem_uniqFirst, List.mem_filterMap]
      simp

/-- C4 counterexample: the second variant's `computeStepPitches`
(src/unnamed/part_002 lines 1011-1021) resolves the chord
[E4, C4, C4] to [64, 60, 60], which is neither ascending-sorted nor
deduplicated, contradicting the claim that `resolvePitches` always
returns a deduplicated ascending-sorted list. -/
theorem computeStepPitchesV2_unsorted :
    (computeStepPitchesV2 tkUnison [["note-1", "note-2", "note-3"]])[0]?.getD []
      = [64, 60, 60] ∧
    ¬ List.Sorted (· ≤ ·)
      ((computeStepPitchesV2 tkUnison [["note-1", "note-2", "note-3"]])[0]?.getD []) ∧
    ¬ ((computeStepPitchesV2 tkUnison [["note-1", "note-2", "note-3"]])[0]?.getD []).Nodup := by
  refine ⟨by decide, ?_, by decide⟩
  intro hsorted
  rw [show (computeStepPitchesV2 tkUnison [["note-1", "note-2", "note-3"]])[0]?.getD []
      = [(64 : Int), 60, 60] from by decide] at hsorted
  rcases hsorted with _ | ⟨h64, _⟩
  exact absurd (h64 60 (by simp)) (by decide)


/-! ## C1: activation exclusivity -/

theorem handleHostMessage_activate_isActive (g : Geom) (s : VState)
    (si : Option Int) :
    (handleHostMessage g s (.activate si)).1.isActiveViewer = true := by
  simp [handleHostMessage, highlightStepState]

theorem handleHostMessage_deactivate_state (g : Geom) (s : VState) :
    (handleHostMessage g s .deactivate).1 = { s with isActiveViewer := false } := rfl

private theorem countP_eq_count_true_map (p : α → Bool) (l : List α) :
    l.countP p = (l.map p).count true := by
  induction l with
  | nil => rfl
  | cons x xs ih =>
    cases hx : p x <;>
      simp [List.countP_cons, List.count_cons, hx, ih]

private theorem deckRound_map_active (g : Geom) (si : Int) :
    ∀ (contained : List Bool) (viewers : List VState),
      contained.length = viewers.length →
      (deckRound g si contained viewers).map (fun v => v.isActiveViewer) = contained
  | [], _, _ => by simp [deckRound]
  | _ :: _, [], h => by simp at h
  | c :: cs, v :: vs, h => by
    have h' : cs.length = vs.length := by simpa using h
    have ih := deckRound_map_active g si cs vs h'
    simp only [deckRound, List.zip_cons_cons, List.map_cons] at ih ⊢
    rw [ih]
    cases c with
    | false => rfl
    | true =>
      simp only [List.cons.injEq, and_true, if_pos]
      exact handleHostMessage_activate_isActive g v (some si)

/-- C1 (amended).  Activation exclusivity: after a Deck Bridge
navigation round-trip (every viewer contained in the current slide is
sent `harmony-activate`, every other viewer `harmony-deactivate`), the
viewers reporting `isActive = true` are exactly those contained in the
current slide — whatever their previous states, so the property holds
after every round of any message sequence.  Consequently, at most one
viewer is active provided the current slide contains at most one
embedded viewer; with several viewers on one slide the bridge activates
all of them. -/
theorem deckRound_exclusivity (g : Geom) (si : Int) (contained : List Bool)
    (viewers : List VState) (hlen : contained.length = viewers.length) :
    (deckRound g si contained viewers).map (fun v => v.isActiveViewer) = contained ∧
    (contained.count true ≤ 1 →
      ((deckRound g si contained viewers).filter (fun v => v.isActiveViewer)).length ≤ 1) := by
  have hmap := deckRound_map_active g si contained viewers hlen
  refine ⟨hmap, fun hcount => ?_⟩
  have h1 : ((deckRound g si contained viewers).filter (fun v => v.isActiveViewer)).length
      = (deckRound g si contained viewers).countP (fun v => v.isActiveViewer) :=
    (List.countP_eq_length_filter _ _).symm
  rw [h1, countP_eq_count_true_map, hmap]
  exact hcount

/-- C1 counterexample: a slide containing two harmony iframes.  The
Deck Bridge sends `harmony-activate` to both, so after the round-trip
two viewers report `isActive = true`, refuting "at most one viewer has
isActive = true after every message round-trip" as stated. -/
theorem deckRound_two_viewers_active :
    ((deckRound geom0 0 [true, true] [defaultViewer, defaultViewer]).filter
        (fun v => v.isActiveViewer)).length = 2 ∧
    ¬((2 : Nat) ≤ 1) := by
  constructor
  · decide
  · decide

/-- Witness for C1: three viewers, only the second on the current
slide; after the round exactly the second is active. -/
theorem deckRound_exclusivity_witness :
    ((deckRound geom0 3 [false, true, false]
        [defaultViewer, defaultViewer, defaultViewer]).map
      (fun v => v.isActiveViewer) = [false, true, false]) ∧
    ((deckRound geom0 3 [false, true, false]
        [defaultViewer, defaultViewer, defaultViewer]).filter
      (fun v => v.isActiveViewer)).length ≤ 1 := by
  have h := deckRound_exclusivity geom0 3 [false, true, false]
    [defaultViewer, defaultViewer, defaultViewer] (by decide)
  exact ⟨h.1, h.2 (by decide)⟩

/-! ## C2: note-output gating -/

private theorem highlightStepEvents_inactive (s : VState) (k : Int)
    (hinact : s.isActiveViewer = false) :
    highlightStepEvents s k =
      (if s.midiOut then [OutEv.ccOut 0 123 0] else []) ++
        (if s.embedded then [OutEv.heightReport] else []) := by
  cases hm : s.midiOut <;> cases he : s.embedded <;>
    simp [highlightStepEvents, hinact, sendAllNotesOff, sendCC,
      notifyParentOfHeight, clampInt, hm, he]

/-- C2.  Note-output gating: `selectStep(k)` with `k > 0` on an
inactive viewer emits no Note-On and instead performs the all-notes-off
emission (CC 123, which reaches the wire exactly when an output port is
bound), followed only by the height report; moreover an inactive viewer
never emits a Note-On through the raw MIDI controller path either. -/
theorem selectStep_inactive_gating (g : Geom) (s : VState) (k : Int)
    (hinact : s.isActiveViewer = false) (_hk : 0 < k) :
    (∀ ch p v, OutEv.noteOn ch p v ∉ (highlightStep g s k).2) ∧
    ((highlightStep g s k).2 =
      (if s.midiOut then [OutEv.ccOut 0 123 0] else []) ++
        (if s.embedded then [OutEv.heightReport] else [])) ∧
    (∀ data ch p v, OutEv.noteOn ch p v ∉ (handleMidiMessage g s data).2) := by
  have hev := highlightStepEvents_inactive s k hinact
  have hnone : ∀ (k' : Int) ch p v, OutEv.noteOn ch p v ∉ highlightStepEvents s k' := by
    intro k' ch p v
    rw [highlightStepEvents_inactive s k' hinact]
    cases hm : s.midiOut <;> cases he : s.embedded <;> simp [hm, he]
  refine ⟨fun ch p v => hnone k ch p v, hev, ?_⟩
  intro data ch p v
  unfold handleMidiMessage
  split
  · simp
  · split
    · split
      · exact hnone _ ch p v
      · simp
    · simp

/-- Witness for C2: an inactive embedded viewer with one step and a
bound output, told to select step 1, emits exactly the all-notes-off
and the height report — no Note-On. -/
theorem selectStep_inactive_gating_witness :
    (∀ ch p v, OutEv.noteOn ch p v ∉ (highlightStep geom0 inactiveOut 1).2) ∧
    (highlightStep geom0 inactiveOut 1).2 = [OutEv.ccOut 0 123 0, OutEv.heightReport] := by
  have h := selectStep_inactive_gating geom0 inactiveOut 1 rfl (by decide)
  exact ⟨h.1, by simpa using h.2.1⟩

/-! ## C5: step-index clamping -/

/-- C5 (amended).  Step-index clamping: the part_002 viewer's
`selectStep` stores `n` clamped into `[0, stepCount]` (0 for negative
`n`, `stepCount` for `n > stepCount`, `n` itself in range); the
chord-safe viewer of src/js/viewer.js instead resets the step to 0 for
every out-of-range index, including `n > stepCount`. -/
theorem selectStep_clamping (g : Geom) (s : VState) (n : Int) :
    (0 ≤ (highlightStep g s n).1.highlightedStep ∧
      (highlightStep g s n).1.highlightedStep ≤ (s.harmonicSteps.length : Int) ∧
      (n < 0 → (highlightStep g s n).1.highlightedStep = 0) ∧
      ((s.harmonicSteps.length : Int) < n →
        (highlightStep g s n).1.highlightedStep = (s.harmonicSteps.length : Int)) ∧
      (0 ≤ n → n ≤ (s.harmonicSteps.length : Int) →
        (highlightStep g s n).1.highlightedStep = n)) ∧
    (∀ (steps : List (List Dom)) (m : Int), (steps.length : Int) < m →
      highlightStepJs steps m = 0) := by
  have hh : (highlightStep g s n).1.highlightedStep
      = clampInt n 0 (s.harmonicSteps.length : Int) := rfl
  constructor
  · rw [hh]
    unfold clampInt
    refine ⟨?_, ?_, ?_, ?_, ?_⟩ <;> omega
  · intro steps m hm
    simp [highlightStepJs, Or.inr hm]

/-- C5 counterexample: for a score with a single step, the
src/js/viewer.js `highlightStep` called with index 2 stores step 0,
not the clamped value 1 — so `selectStep(n)` does not always clamp into
`[0, stepCount]`. -/
theorem highlightStepJs_not_clamping :
    highlightStepJs [[Dom.el "use" [] []]] 2 = 0 ∧
    clampInt 2 0 (1 : Int) = 1 ∧ ((0 : Int) ≠ 1) := by
  refine ⟨by decide, by decide, by decide⟩

/-- Witness for C5: a viewer with two steps clamps -3 to 0, 7 to 2 and
keeps 1; the js variant zeroes 7. -/
theorem selectStep_clamping_witness :
    (highlightStep geom0 embeddedInactive (-3)).1.highlightedStep = 0 ∧
    (highlightStep geom0 embeddedInactive 7).1.highlightedStep = 2 ∧
    (highlightStep geom0 embeddedInactive 1).1.highlightedStep = 1 ∧
    highlightStepJs [] 7 = 0 := by
  refine ⟨?_, ?_, ?_, ?_⟩
  · exact ((selectStep_clamping geom0 embeddedInactive (-3)).1.2.2.1 (by decide))
  · exact ((selectStep_clamping geom0 embeddedInactive 7).1.2.2.2.1 (by decide))
  · exact ((selectStep_clamping geom0 embeddedInactive 1).1.2.2.2.2 (by decide) (by decide))
  · exact ((selectStep_clamping geom0 embeddedInactive 7).2 [] 7 (by decide))

/-! ## C7: idempotent deactivate -/

/-- C7 (amended).  Deactivate is idempotent on the session state: a
second `harmony-deactivate` leaves the state of the first unchanged and
repeats exactly the same emission; but each delivery sends its own
all-notes-off when an output is bound (at most one burst PER CALL), so
two deliveries produce two bursts, not at most one in total. -/
theorem deactivate_idempotent (g : Geom) (s : VState) :
    ((handleHostMessage g (handleHostMessage g s .deactivate).1 .deactivate).1
      = (handleHostMessage g s .deactivate).1) ∧
    ((handleHostMessage g (handleHostMessage g s .deactivate).1 .deactivate).2
      = (handleHostMessage g s .deactivate).2) ∧
    ((handleHostMessage g s .deactivate).2.countP
        (fun ev => ev == OutEv.ccOut 0 123 0) ≤ 1) := by
  refine ⟨rfl, rfl, ?_⟩
  cases hm : s.midiOut <;>
    simp [handleHostMessage, sendAllNotesOff, sendCC, clampInt, hm]

/-- C7 counterexample: an active viewer with a bound output receives
`harmony-deactivate` twice; the two calls together emit two
all-notes-off bursts, refuting "at most one all-notes-off burst is
emitted across the two calls". -/
theorem deactivate_twice_two_bursts :
    (((handleHostMessage geom0 activeViewer .deactivate).2 ++
        (handleHostMessage geom0
          (handleHostMessage geom0 activeViewer .deactivate).1 .deactivate).2).countP
      (fun ev => ev == OutEv.ccOut 0 123 0) = 2) ∧
    ¬((2 : Nat) ≤ 1) := by
  constructor
  · decide
  · decide

/-! ## C9: controller messages while inactive -/

/-- C9 (amended).  An embedded viewer in the Inactive state ignores
every incoming MIDI message entirely — `handleMidiMessage` returns
before parsing, so the highlight, the overlay and the step index are
NOT updated locally, and nothing is emitted. -/
theorem midiIn_ignored_inactive_embedded (g : Geom) (s : VState) (data : List Nat)
    (h1 : s.isActiveViewer = false) (h2 : s.embedded = true) :
    handleMidiMessage g s data = (s, []) := by
  simp [handleMidiMessage, h1, h2]

/-- C9 counterexample: an inactive embedded viewer with two steps
receives the step-select controller message CC22 value 2; its
highlighted step stays 0 (it is not updated to 2) and its state is
completely unchanged, refuting "it still updates its highlight and
overlay locally to step k". -/
theorem midiIn_inactive_no_local_highlight :
    (handleMidiMessage geom0 embeddedInactive [0xb0, 22, 2]).1.highlightedStep = 0 ∧
    ((0 : Int) ≠ 2) ∧
    handleMidiMessage geom0 embeddedInactive [0xb0, 22, 2] = (embeddedInactive, []) := by
  refine ⟨by decide, by decide, by decide⟩

/-- Witness for C9's amended statement at a concrete input. -/
theorem midiIn_ignored_inactive_embedded_witness :
    handleMidiMessage geom0 defaultViewer [0xb0, 22, 1] = (defaultViewer, []) :=
  midiIn_ignored_inactive_embedded geom0 defaultViewer [0xb0, 22, 1] rfl rfl

/-! ## C10: frame property of the MIDI input path -/

/-- C10.  Only the step-select Control Change can alter viewer state
through the MIDI input path: for any message whose status high nibble
is not 0xB0 or whose controller is not the step-select CC, the part_002
handler returns the state unchanged and emits nothing, and the
src/js/viewer.js handler leaves `currentStep` unchanged. -/
theorem midiIn_frame (g : Geom) (s : VState) (data : List Nat)
    (h : ((data[0]?).getD 0) &&& 0xf0 ≠ 0xb0 ∨ ((data[1]?).getD 0) &&& 0x7f ≠ 22) :
    handleMidiMessage g s data = (s, []) ∧
    (∀ (ccSelect : Int) (steps : List (List Dom)) (cur : Int) (d : List Nat),
      (((d[0]?).getD 0) &&& 0xf0 ≠ 0xb0 ∨
        ∀ c : Nat, d[1]? = some c → (c : Int) ≠ ccSelect) →
      handleMIDIInJs ccSelect steps cur d = cur) := by
  constructor
  · by_cases hearly : (!s.isActiveViewer && s.embedded) = true
    · simp [handleMidiMessage, hearly]
    · rcases h with h | h
      · simp [handleMidiMessage, hearly, h]
      · by_cases h0 : ((data[0]?).getD 0) &&& 0xf0 = 0xb0
        · simp [handleMidiMessage, hearly, h0, h]
        · simp [handleMidiMessage, hearly, h0]
  · intro ccSelect steps cur d hd
    cases h0 : d[0]? with
    | none => simp [handleMIDIInJs, h0]
    | some status =>
      by_cases hs : (status &&& 0xf0 != 0xb0) = true
      · simp [handleMIDIInJs, h0, hs]
      · cases h1 : d[1]? with
        | none => simp [handleMIDIInJs, h0, hs, h1]
        | some cc =>
          have hcc : ¬((cc : Int) = ccSelect) := by
            rcases hd with hd | hd
            · exfalso
              apply hd
              rw [h0]
              simpa using hs
            · exact hd cc h1
          simp [handleMIDIInJs, h0, hs, h1, hcc]

/-- Witness for C10: a Note-On message (status 0x90) leaves both
handlers untouched. -/
theorem midiIn_frame_witness :
    handleMidiMessage geom0 activeViewer [144, 60, 100] = (activeViewer, []) ∧
    handleMIDIInJs 22 [] 5 [144, 60, 100] = 5 := by
  have h := midiIn_frame geom0 activeViewer [144, 60, 100] (by decide)
  exact ⟨h.1, h.2 22 [] 5 [144, 60, 100] (by decide)⟩

/-! ## C6: baseline stability -/

/-- C6.  Baseline stability: starting with an unknown baseline, the
first overlay display computes it from the displayed step's lowest
extent and stores it; a second display for a different non-zero step
reuses the identical vertical position (only the horizontal position
follows the step).  A viewport resize resets the baseline to unknown:
with no step displayed it stays unknown, with a step displayed it is
lazily recomputed from the new layout on the reposition that follows. -/
theorem baseline_stability (env : OEnv) (st : OState) (i j : Int)
    (hbase : st.globalBaselineY = none)
    (ei : AEntry) (hei : analysisEntry env i = some ei)
    (ej : AEntry) (hej : analysisEntry env j = some ej)
    (bi bj : BBoxS)
    (hbi : getStepScreenBBox env i = some bi)
    (hbj : getStepScreenBBox env j = some bj) :
    ((updateOverlayForStep env st i).globalBaselineY
        = some (bi.maxY - env.viewerRect.top + 10) ∧
      (updateOverlayForStep env (updateOverlayForStep env st i) j).globalBaselineY
        = some (bi.maxY - env.viewerRect.top + 10) ∧
      (updateOverlayForStep env st i).overlayPos
        = some ((bi.minX + bi.maxX) / 2 - env.viewerRect.left,
            bi.maxY - env.viewerRect.top + 10) ∧
      (updateOverlayForStep env (updateOverlayForStep env st i) j).overlayPos
        = some ((bj.minX + bj.maxX) / 2 - env.viewerRect.left,
            bi.maxY - env.viewerRect.top + 10)) ∧
    (∀ (envNew : OEnv) (stR : OState), stR.currentStep ≤ 0 →
      onResize envNew stR = { stR with globalBaselineY := none }) ∧
    (∀ (envNew : OEnv) (stR : OState) (b' : BBoxS) (e' : AEntry),
      0 < stR.currentStep →
      analysisEntry envNew stR.currentStep = some e' →
      getStepScreenBBox envNew stR.currentStep = some b' →
      (onResize envNew stR).globalBaselineY
        = some (b'.maxY - envNew.viewerRect.top + 10)) := by
  have hstep1 : updateOverlayForStep env st i =
      { st with
          overlayHidden := false
          globalBaselineY := some (bi.maxY - env.viewerRect.top + 10)
          overlayPos := some ((bi.minX + bi.maxX) / 2 - env.viewerRect.left,
            bi.maxY - env.viewerRect.top + 10) } := by
    simp [updateOverlayForStep, positionOverlayAtStep, hei, hbase, hbi]
  have hstep2 : updateOverlayForStep env (updateOverlayForStep env st i) j =
      { st with
          overlayHidden := false
          globalBaselineY := some (bi.maxY - env.viewerRect.top + 10)
          overlayPos := some ((bj.minX + bj.maxX) / 2 - env.viewerRect.left,
            bi.maxY - env.viewerRect.top + 10) } := by
    rw [hstep1]
    simp [updateOverlayForStep, positionOverlayAtStep, hej, hbj]
  refine ⟨⟨?_, ?_, ?_, ?_⟩, ?_, ?_⟩
  · rw [hstep1]
  · rw [hstep2]
  · rw [hstep1]
  · rw [hstep2]
  · intro envNew stR hle
    have : ¬(0 < stR.currentStep) := by omega
    simp [onResize, repositionOverlayForCurrentStep, this]
  · intro envNew stR b' e' hpos hent hbb
    have h0 : (0 : Int) < ({ stR with globalBaselineY := none } : OState).currentStep := hpos
    simp only [onResize, repositionOverlayForCurrentStep, if_pos h0]
    simp [updateOverlayForStep, positionOverlayAtStep, hent, hbb]

/-- Witness for C6: with two steps whose lowest pixels are 50 and 30
and a viewer top of 5, the first display fixes the baseline at 55 and
the second display for the other step keeps the same vertical
position. -/
theorem baseline_stability_witness :
    (updateOverlayForStep oenv1 ostate0 1).globalBaselineY = some 55 ∧
    (updateOverlayForStep oenv1 (updateOverlayForStep oenv1 ostate0 1) 2).overlayPos
      = some (105, 55) := by
  have h := baseline_stability oenv1 ostate0 1 2 rfl
    ⟨"I", "T"⟩ (by decide) ⟨"V", "D"⟩ (by decide)
    ⟨10, 20, 50⟩ ⟨100, 120, 30⟩ (by decide) (by decide)
  constructor
  · rw [h.1.1]
    simp only [Option.some.injEq]
    norm_num [oenv1]
  · rw [h.1.2.2.2]
    simp only [Option.some.injEq, Prod.mk.injEq]
    norm_num [oenv1]

/-! ## C8: MIDI port absence -/

/-- C8 (amended).  Port absence: the src/js/viewer.js binder leaves the
binding `null` when no port name contains the hint, and with an unbound
output every emission call is a silent no-op (both the viewer.js
`sendStepCount` and every part_002 emission helper); but part_002's
`pickMidiPort` returns `null` only when NO ports exist at all — when
ports exist and none matches the hint it falls back to the first
available port instead of leaving the binding unbound. -/
theorem port_absence_handling :
    (∀ (names : List String) (hint : String),
      (∀ n ∈ names, containsSeq hint.data n.data = false) →
      bindPortJs names hint = none) ∧
    (∀ ccCount stepCount, sendStepCountJs none ccCount stepCount = []) ∧
    (∀ s : VState, s.midiOut = false →
      sendStepCountCc s = [] ∧ sendSlideIndexCc s s.currentSlideIndex = [] ∧
      sendAllNotesOff s = [] ∧ (∀ k, sendStepNotesAsMidi s k = []) ∧
      (∀ cc value, sendCC s cc value = [])) ∧
    (∀ (ports : List String) (hint : String),
      pickMidiPort ports hint = none ↔ ports = []) := by
  refine ⟨?_, fun _ _ => rfl, ?_, ?_⟩
  · intro names hint hno
    unfold bindPortJs
    rw [List.filter_eq_nil_iff.mpr fun n hn => by simp [hno n hn]]
    rfl
  · intro s hm
    refine ⟨?_, ?_, ?_, ?_, ?_⟩ <;>
      simp [sendStepCountCc, sendSlideIndexCc, sendAllNotesOff,
        sendStepNotesAsMidi, sendCC, hm]
  · intro ports hint
    cases ports with
    | nil => simp [pickMidiPort]
    | cons p ps =>
      simp only [pickMidiPort]
      refine ⟨fun h => ?_, fun h => absurd h (List.cons_ne_nil p ps)⟩
      exfalso
      split at h
      · simp at h
      · split at h
        · simp at h
        · simp at h

/-- C8 counterexample: a single available port "IAC Driver Bus 1" whose
name does not contain the normalized hint "browser->max"; instead of
leaving the binding `null`, `pickMidiPort` falls back to binding that
port. -/
theorem pickMidiPort_binds_fallback :
    (∀ n ∈ ["IAC Driver Bus 1"],
      containsSeq (normalizePortName "browser->max").data
        (normalizePortName n).data = false) ∧
    pickMidiPort ["IAC Driver Bus 1"] "browser->max" = some "IAC Driver Bus 1" := by
  constructor
  · decide
  · decide

/-- Witness for C8: no port name contains the default hint, so the
viewer.js binder stays unbound, and emissions with no output are
no-ops. -/
theorem port_absence_handling_witness :
    bindPortJs ["Foo"] "Max→Browser" = none ∧
    sendAllNotesOff defaultViewer = [] ∧
    (pickMidiPort [] "Browser→Max" = none ↔ ([] : List String) = []) := by
  have h := port_absence_handling
  exact ⟨h.1 ["Foo"] "Max→Browser" (by decide),
    (h.2.2.1 defaultViewer rfl).2.2.1,
    h.2.2.2 [] "Browser→Max"⟩

end Harmony
